import Mathlib

/-!
# Verification of the TextBox trainer orchestration engine

Shallow embedding of `textbox/trainer/trainer.py` (class `Trainer`): the
training-loop driver (`fit`, `_train_epoch`), the validation controller
(`_valid`, `_early_stopping`), checkpoint save/resume (`_get_checkpoint`,
`resume_checkpoint`), the evaluation driver (`evaluate`) and its
"paraphrase" post-processing.

External collaborators (the torch model, optimizer, accelerator, and the
dashboard tracker whose source is not part of the trainer module) are
modelled from the specification: their observable effects are either
ghost-counted (losses computed, optimizer steps, checkpoints written) or
supplied as explicit inputs (validation outcomes).  Python integers are
Nat/Int; Python `None` is `Option.none`; Python dynamic typing, where it
matters (the runtime value stored in `valid_result_dict`), is an explicit
sum; the single float that the trainer ever manufactures (`1e10`) is a
tagged numeral.
-/

namespace TB

/-- Cadence mode of a validation call and of the configured strategy
(`'step'` or `'epoch'` in the Python source). -/
inductive VMode where
  | step
  | epoch
deriving DecidableEq

/-- Mode tag of a tracker epoch scope (`'train'` or `'valid'`). -/
inductive EMode where
  | train
  | valid
deriving DecidableEq

/-- Modelled from the spec: the dashboard `Timestamp` ("a monotonically
advancing tuple {train_step, train_epoch, valid_epoch}"); the dashboard
module itself is not among the sources. -/
structure Timestamp where
  train_step : Nat
  train_epoch : Nat
  valid_epoch : Nat
deriving DecidableEq

/-- Modelled from the spec: the dashboard `EpochTracker` / EpochSummary
("per-epoch aggregate: running loss average, optional metric-name to value
mapping, a flag `is this the best validation so far`").  Metric values are
abstracted to integers; no claim inspects their numeric content. -/
structure EpochTracker where
  loss : Int
  metrics : List (String × Int)
  is_best : Bool
deriving DecidableEq

/-- The empty per-epoch summary opened by a fresh epoch scope. -/
def emptySummary : EpochTracker := ⟨0, [], false⟩

/-- Modelled from the spec: the dashboard summary tracker state consumed by
the trainer (`axes` timestamp, the current epoch scope's mode and
accumulator, and the best-validation bookkeeping). -/
structure SummaryTracker where
  axes : Timestamp
  current_mode : Option EMode
  current_epoch : Option EpochTracker
  best_valid_score : Int
  best_valid_timestamp : Timestamp
deriving DecidableEq

/-- Modelled from the spec: entering `new_epoch(mode)` opens an epoch scope
and advances the corresponding epoch axis. -/
def newEpochEnter (m : EMode) (t : SummaryTracker) : SummaryTracker :=
  { t with
    current_mode := some m
    current_epoch := some emptySummary
    axes := match m with
      | .train => { t.axes with train_epoch := t.axes.train_epoch + 1 }
      | .valid => { t.axes with valid_epoch := t.axes.valid_epoch + 1 } }

/-- Modelled from the spec: leaving a `new_epoch` scope finalizes the
epoch-scoped accumulation context. -/
def newEpochExit (t : SummaryTracker) : SummaryTracker :=
  { t with current_mode := none, current_epoch := none }

/-- Modelled from the spec: `new_step()` "advances train_step (train mode)
or a step counter (valid mode)". -/
def newStep (t : SummaryTracker) : SummaryTracker :=
  if t.current_mode = some .train then
    { t with axes := { t.axes with train_step := t.axes.train_step + 1 } }
  else t

/-- Result of one completed validation run, supplied as an input: the
summary recorded by the tracker, the scalar model-selection score, and the
tracker's `is_best_valid` verdict.  The metric computation itself (model
forward passes or the evaluator) is an external collaborator. -/
structure VOutcome where
  summary : EpochTracker
  score : Int
  is_best : Bool
deriving DecidableEq

/-- Modelled from the spec: `set_metrics_results` records the validation
summary in the current scope and updates the best-score bookkeeping when
the tracker reports a new best. -/
def recordValidOutcome (o : VOutcome) (t : SummaryTracker) : SummaryTracker :=
  { t with
    current_epoch := some o.summary
    best_valid_score := if o.is_best then o.score else t.best_valid_score
    best_valid_timestamp := if o.is_best then t.axes else t.best_valid_timestamp }

/-- A Python runtime numeral: the trainer stores either an int or (for the
epoch bound `1e10`, which is exactly representable) a float. -/
inductive PyNum where
  | int (n : Nat)
  | float (n : Nat)
deriving DecidableEq

/-- Python exceptions that the embedded control flow can raise. -/
inductive PyErr where
  | typeError
  | keyError
deriving DecidableEq

/-- Python truthiness of an optional integer (`None` and `0` are falsy). -/
def pyTruthy : Option Nat → Bool
  | none => false
  | some n => n != 0

/-- Python `==` between an int and an optional int (`x == None` is False). -/
def pyEqNatOpt (x : Nat) : Option Nat → Bool
  | none => false
  | some m => x == m

/-- Python `range(start, stop)`: raises `TypeError` when `stop` is a float,
otherwise yields `[start, stop)`. -/
def pyRange (start : Nat) (stop : PyNum) : Except PyErr (List Nat) :=
  match stop with
  | .int n => .ok (List.range' start (n - start))
  | .float _ => .error .typeError

/-- `Trainer.__init__` line `self.epochs = config['epochs'] if not
self.max_steps else 1e10`. -/
def initEpochs (epochs_cfg : Nat) (max_steps : Option Nat) : PyNum :=
  if pyTruthy max_steps then .float 10000000000 else .int epochs_cfg

/-- The trainer configuration fields the claims depend on. -/
structure TrainerConfig where
  accumulation_steps : Nat
  max_steps : Option Nat
  epochs_cfg : Nat
  valid_steps : Int
  valid_strategy : VMode
  stopping_steps : Nat
  is_save : Bool
deriving DecidableEq

/-- Python dict assignment `d[k] = v` on an (insertion-ordered) mapping:
replace in place if the key exists, else append. -/
def dictSet (d : List (Nat × EpochTracker)) (k : Nat) (v : EpochTracker) :
    List (Nat × EpochTracker) :=
  match d with
  | [] => [(k, v)]
  | (k', v') :: rest =>
    if k' = k then (k, v) :: rest else (k', v') :: dictSet rest k v

/-- Python dict lookup `d[k]` as an option (`none` is a `KeyError`). -/
def dictGet (d : List (Nat × EpochTracker)) (k : Nat) : Option EpochTracker :=
  match d with
  | [] => none
  | (k', v') :: rest => if k' = k then some v' else dictGet rest k

/-- The mutable trainer state threaded through the training loop, with
ghost counters observing the external effects: `n_new_step` counts
`new_step` calls, `n_opt_step` optimizer updates, `n_loss` micro-batch
forward/backward passes, `n_saves` checkpoint writes. -/
structure TrainerState where
  tracker : SummaryTracker
  stopped : Bool
  stopping_count : Nat
  valid_count : Nat
  valid_result_dict : List (Nat × EpochTracker)
  start_epoch : Nat
  train_loss_list : List Int
  oracle : List VOutcome
  n_new_step : Nat
  n_opt_step : Nat
  n_loss : Nat
  n_saves : Nat
deriving DecidableEq

/-- Pop the next validation outcome from the input stream. -/
def nextOutcome (st : TrainerState) : VOutcome × TrainerState :=
  match st.oracle with
  | [] => (⟨emptySummary, 0, false⟩, st)
  | o :: rest => (o, { st with oracle := rest })

/-- `Trainer._early_stopping` (lines 312-330): a best validation resets the
counter; a non-best validation increments it and stops once the counter
exceeds `stopping_steps`. -/
def earlyStopping (stopping_steps : Nat) (stopping_count : Nat)
    (current_best : Bool) : Nat × Bool :=
  if current_best then (0, false)
  else (stopping_count + 1, decide (stopping_count + 1 > stopping_steps))

/-- `Trainer._valid` (lines 244-310).  The nested validation epoch's metric
computation is external; its outcome is read from the input stream.  The
checkpoint write (`save_checkpoint`, reached only on the designated writer)
is ghost-counted in `n_saves`. -/
def runValid (cfg : TrainerConfig) (st : TrainerState) (valid_mode : VMode) :
    TrainerState × Bool :=
  if cfg.valid_steps ≤ 0 || valid_mode ≠ cfg.valid_strategy then (st, false)
  else
    let st := { st with valid_count := st.valid_count + 1 }
    if (st.valid_count : Int) % cfg.valid_steps ≠ 0 then (st, false)
    else
      let temp_mode := st.tracker.current_mode
      let temp_epoch := st.tracker.current_epoch
      let tr := newEpochEnter .valid st.tracker
      let (o, st) := nextOutcome st
      let tr := recordValidOutcome o tr
      let st := { st with
        valid_result_dict := dictSet st.valid_result_dict tr.axes.valid_epoch o.summary }
      let tr := newEpochExit tr
      let tr := { tr with current_mode := temp_mode, current_epoch := temp_epoch }
      let st := { st with tracker := tr }
      let (st, stopped) :=
        if cfg.stopping_steps ≠ 0 then
          let r := earlyStopping cfg.stopping_steps st.stopping_count o.is_best
          ({ st with stopping_count := r.1 }, r.2)
        else (st, false)
      let st := if cfg.is_save then { st with n_saves := st.n_saves + 1 } else st
      (st, stopped)

/-- The persisted checkpoint record built by `Trainer._get_checkpoint`
(lines 332-354).  The model and optimizer state dicts and the full config
snapshot are external collaborator state and are omitted; the fields below
are exactly those that `resume_checkpoint` restores into trainer state. -/
structure Checkpoint where
  stopping_count : Nat
  best_valid_score : Int
  epoch : Nat
  timestamp : Timestamp
  summary : EpochTracker
deriving DecidableEq

/-- `Trainer._get_checkpoint`: `None` (with a warning) when no validation
has been performed; otherwise the record whose `summary` field holds the
single summary `valid_result_dict[timestamp.valid_epoch]` ("parameters for
recording only" in the source). -/
def getCheckpoint (st : TrainerState) : Except PyErr (Option Checkpoint) :=
  if st.valid_result_dict = [] then .ok none
  else
    match dictGet st.valid_result_dict st.tracker.axes.valid_epoch with
    | none => .error .keyError
    | some summ => .ok (some
        { stopping_count := st.stopping_count
          best_valid_score := st.tracker.best_valid_score
          epoch := st.tracker.axes.train_epoch
          timestamp := st.tracker.axes
          summary := summ })

/-- The runtime value held by the `valid_result_dict` attribute: the
annotated type is a mapping from valid-epoch serial to summary, but
`resume_checkpoint` assigns a bare summary object to it. -/
inductive ValidResultVal where
  | dict (m : List (Nat × EpochTracker))
  | single (e : EpochTracker)
deriving DecidableEq

/-- The trainer attributes that `resume_checkpoint` writes. -/
structure ResumeView where
  start_epoch : Nat
  axes : Timestamp
  stopping_count : Nat
  best_valid_score : Int
  valid_result_dict : ValidResultVal
deriving DecidableEq

/-- `Trainer.resume_checkpoint` (lines 385-425) restricted to the trainer
state it mutates: when the file exists, `start_epoch := epoch + 1`, the
tracker axes, stopping count and best score are restored, and
`valid_result_dict` is assigned `checkpoint['summary']` — a single
summary object.  (Seed re-initialization and the model/optimizer state-dict
loads act on external collaborators.) -/
def resumeCheckpoint (file_found : Bool) (st : ResumeView) (ck : Checkpoint) :
    ResumeView :=
  if file_found then
    { start_epoch := ck.epoch + 1
      axes := ck.timestamp
      stopping_count := ck.stopping_count
      best_valid_score := ck.best_valid_score
      valid_result_dict := .single ck.summary }
  else st

/-- The tail of one micro-batch iteration of `Trainer._train_epoch` (lines
222-238), after the group-opening block: compute and record the loss and
backpropagate (`n_loss` ghost), then, on the last micro-batch of an
accumulation group or of the loader, clip, step the optimizer and zero the
gradients (`n_opt_step` ghost), run step-mode validation when validation
data is present, and break if stopped.  Returns the state and whether the
batch loop breaks. -/
def trainBatchRest (cfg : TrainerConfig) (hasValid : Bool) (L i : Nat)
    (st : TrainerState) : TrainerState × Bool :=
  let st := { st with n_loss := st.n_loss + 1 }
  if (i + 1) % cfg.accumulation_steps = 0 || i + 1 = L then
    let st := { st with n_opt_step := st.n_opt_step + 1 }
    let p := if hasValid then runValid cfg st .step else (st, false)
    let st := { p.1 with stopped := p.1.stopped || p.2 }
    (st, st.stopped)
  else (st, false)

/-- One micro-batch iteration of `Trainer._train_epoch` (lines 215-238):
on the first micro-batch of each accumulation group, open a new step in the
tracker and break with `stopped := True` when `train_step` equals the
max-steps budget. -/
def trainBatch (cfg : TrainerConfig) (hasValid : Bool) (L i : Nat)
    (st : TrainerState) : TrainerState × Bool :=
  if i % cfg.accumulation_steps = 0 then
    let st := { st with tracker := newStep st.tracker, n_new_step := st.n_new_step + 1 }
    if pyEqNatOpt st.tracker.axes.train_step cfg.max_steps then
      ({ st with stopped := true }, true)
    else trainBatchRest cfg hasValid L i st
  else trainBatchRest cfg hasValid L i st

/-- The batch loop of `Trainer._train_epoch` over the enumerated loader. -/
def trainLoopGo (cfg : TrainerConfig) (hasValid : Bool) (L : Nat) :
    List Nat → TrainerState → TrainerState
  | [], st => st
  | i :: rest, st =>
    let p := trainBatch cfg hasValid L i st
    if p.2 then p.1 else trainLoopGo cfg hasValid L rest p.1

/-- `Trainer._train_epoch` (lines 187-242): open a train epoch scope, run
the batch loop over the `L` micro-batches, return the epoch summary
(`epoch_dict()`) and close the scope. -/
def trainEpoch (cfg : TrainerConfig) (hasValid : Bool) (L : Nat)
    (st : TrainerState) : TrainerState × EpochTracker :=
  let st := { st with tracker := newEpochEnter .train st.tracker }
  let st := trainLoopGo cfg hasValid L (List.range L) st
  let summary := st.tracker.current_epoch.getD emptySummary
  let st := { st with tracker := newEpochExit st.tracker }
  (st, summary)

/-- The epoch loop of `Trainer.fit` (lines 446-460): train an epoch, append
its loss, run epoch-mode validation when validation data is present, and
break once stopped. -/
def fitEpochs (cfg : TrainerConfig) (hasValid : Bool) (L : Nat) :
    List Nat → TrainerState → TrainerState
  | [], st => st
  | _ :: rest, st =>
    let p := trainEpoch cfg hasValid L st
    let st := { p.1 with train_loss_list := p.1.train_loss_list ++ [p.2.loss] }
    let q := if hasValid then runValid cfg st .epoch else (st, false)
    let st := { q.1 with stopped := q.1.stopped || q.2 }
    if st.stopped then st else fitEpochs cfg hasValid L rest st

/-- `Trainer.fit` (lines 427-472): iterate `range(start_epoch, epochs)`
(with `epochs` the Python numeral fixed at construction), then return the
best recorded validation summary
`valid_result_dict[best_valid_timestamp.valid_epoch]` — a `KeyError`
when that key is absent. -/
def fit (cfg : TrainerConfig) (hasValid : Bool) (L : Nat)
    (st : TrainerState) : Except PyErr EpochTracker × TrainerState :=
  match pyRange st.start_epoch (initEpochs cfg.epochs_cfg cfg.max_steps) with
  | .error e => (.error e, st)
  | .ok epochIdxs =>
    let st := fitEpochs cfg hasValid L epochIdxs st
    match dictGet st.valid_result_dict st.tracker.best_valid_timestamp.valid_epoch with
    | none => (.error .keyError, st)
    | some best => (.ok best, st)

/-! ## String post-processing (`evaluate`, lines 558-566)

Python strings are `List Char`; the separator literal is `'[SEP]'`. -/

/-- The separator token `'[SEP]'`. -/
def sepChars : List Char := ['[', 'S', 'E', 'P', ']']

/-- Whether `'[SEP]'` occurs in the string: the code's
`gen.find('[SEP]') >= 0` test. -/
def containsSEP : List Char → Bool
  | [] => false
  | c :: t => sepChars.isPrefixOf (c :: t) || containsSEP t

/-- The text before the first occurrence of `'[SEP]'` (the whole string
when there is none). -/
def beforeSEP : List Char → List Char
  | [] => []
  | c :: t => if sepChars.isPrefixOf (c :: t) then [] else c :: beforeSEP t

/-- The text after the first occurrence of `'[SEP]'` (empty when there is
none). -/
def afterSEP : List Char → List Char
  | [] => []
  | c :: t => if sepChars.isPrefixOf (c :: t) then t.drop 4 else afterSEP t

/-- Fuelled scanner for Python `str.split('[SEP]')`; the fuel (at least the
string length) keeps the recursion structural so that concrete inputs
evaluate inside the kernel. -/
def splitSEPGo : Nat → List Char → List Char → List (List Char)
  | _, [], cur => [cur.reverse]
  | 0, s, cur => [cur.reverse ++ s]
  | fuel + 1, c :: t, cur =>
    if sepChars.isPrefixOf (c :: t) then cur.reverse :: splitSEPGo fuel (t.drop 4) []
    else splitSEPGo fuel t (c :: cur)

/-- Python `gen.split('[SEP]')`. -/
def splitSEP (s : List Char) : List (List Char) := splitSEPGo s.length s []

/-- Python `str.strip()`: drop whitespace from both ends. -/
def pyStrip (s : List Char) : List Char :=
  ((s.dropWhile Char.isWhitespace).reverse.dropWhile Char.isWhitespace).reverse

/-- Index of the last occurrence of a character, if any. -/
def lastIdxOf (c : Char) : List Char → Option Nat
  | [] => none
  | x :: t =>
    match lastIdxOf c t with
    | some j => some (j + 1)
    | none => if x = c then some 0 else none

/-- Python `s.rfind(c)`: last index of `c`, or `-1`. -/
def pyRFindChar (c : Char) (s : List Char) : Int :=
  match lastIdxOf c s with
  | some i => (i : Int)
  | none => -1

/-- Index of the first occurrence of a character, if any. -/
def firstIdxOf (c : Char) : List Char → Option Nat
  | [] => none
  | x :: t => if x = c then some 0 else (firstIdxOf c t).map (· + 1)

/-- Python `s.find(c, start)` with Python index normalization: a negative
`start` counts from the end (clamped at 0); returns the absolute index of
the first occurrence at or after `start`, or `-1`. -/
def pyFindCharFrom (c : Char) (s : List Char) (start : Int) : Int :=
  let st : Nat := if start < 0 then ((s.length : Int) + start).toNat else start.toNat
  match firstIdxOf c (s.drop st) with
  | some i => ((st + i : Nat) : Int)
  | none => -1

/-- Python `s[i:]` with Python index normalization: a negative `i` counts
from the end (clamped at 0). -/
def pySliceFrom (s : List Char) (i : Int) : List Char :=
  if i < 0 then s.drop ((s.length : Int) + i).toNat else s.drop i.toNat

/-- The `'paraphrase'` post-processing transform applied to each generated
string (`evaluate`, lines 558-566): when `'[SEP]'` occurs, take field 1 of
the `'[SEP]'`-split and strip it; otherwise `last = max(rfind('('),
rfind(')'))`, then `last = find(' ', last)`, then `gen[last:].strip()`. -/
def paraphrasePost (gen : List Char) : List Char :=
  if containsSEP gen then
    pyStrip ((splitSEP gen).getD 1 [])
  else
    let last1 : Int := max (pyRFindChar '(' gen) (pyRFindChar ')' gen)
    let last2 : Int := pyFindCharFrom ' ' gen last1
    pyStrip (pySliceFrom gen last2)

/-! ## Evaluation driver (`Trainer.evaluate`, lines 474-573) -/

/-- The environment of an `evaluate` call: the filesystem (existing paths),
the default best-pointer path, whether the `'paraphrase'` post-processing
is configured, and the external generation and scoring collaborators'
outputs (the generated corpus before truncation, the reference-corpus
length, and the evaluator's metric result). -/
structure EvalEnv where
  fs : List String
  saved_model_filename : String
  paraphrase : Bool
  corpus_len : Nat
  generated : List (List Char)
  metrics : List (String × Int)
deriving DecidableEq

/-- The generation-and-scoring tail of `evaluate` (lines 515-573), reached
after any checkpoint loading: generate (external), truncate to the
reference-corpus length, apply the configured post-processing, and return
the evaluator result.  The ghost boolean records whether a checkpoint was
loaded on the way in. -/
def evaluateBody (env : EvalEnv) (loaded : Bool) :
    Option (List (String × Int)) × Bool :=
  let corpus := env.generated.take env.corpus_len
  let _ := if env.paraphrase then corpus.map paraphrasePost else corpus
  (some env.metrics, loaded)

/-- `Trainer.evaluate` (lines 474-573): validation calls never reload a
checkpoint; test-mode calls load `model_file` (or the default best-pointer
path) and return `None` after logging an error when that file does not
exist. -/
def evaluate (env : EvalEnv) (load_best_model : Bool)
    (model_file : Option String) (is_valid : Bool) :
    Option (List (String × Int)) × Bool :=
  let lbm := if is_valid then false else load_best_model
  if lbm then
    let checkpoint_file := model_file.getD (env.saved_model_filename ++ ".pth")
    if env.fs.contains checkpoint_file then evaluateBody env true
    else (none, false)
  else evaluateBody env false

/-! ## Shared concrete states -/

/-- A freshly constructed trainer state (no resume, nothing recorded). -/
def initState : TrainerState :=
  { tracker := ⟨⟨0, 0, 0⟩, none, none, 0, ⟨0, 0, 0⟩⟩
    stopped := false
    stopping_count := 0
    valid_count := 0
    valid_result_dict := []
    start_epoch := 0
    train_loss_list := []
    oracle := []
    n_new_step := 0
    n_opt_step := 0
    n_loss := 0
    n_saves := 0 }

/-! ## Claim C5 -/

/-- C5: after every call to `_valid`, the tracker's current mode and
current epoch equal the values they held before the call (the explicit
swap-and-restore at lines 269-270 and 300-301), so the enclosing training
epoch's accumulators are untouched by the nested validation epoch. -/
theorem c5_tracker_mode_epoch_restored (cfg : TrainerConfig)
    (st : TrainerState) (m : VMode) :
    (runValid cfg st m).1.tracker.current_mode = st.tracker.current_mode ∧
    (runValid cfg st m).1.tracker.current_epoch = st.tracker.current_epoch := by
  unfold runValid nextOutcome
  repeat' split <;> simp_all

/-! ## Claim C6 -/

/-- With `valid_steps = 0` the first guard of `_valid` fires: the call
returns `False` and leaves the whole trainer state unchanged. -/
theorem runValid_valid_steps_zero (cfg : TrainerConfig) (st : TrainerState)
    (m : VMode) (h : cfg.valid_steps = 0) : runValid cfg st m = (st, false) := by
  unfold runValid
  rw [h]
  simp

theorem trainBatchRest_saves (cfg : TrainerConfig) (hv : Bool) (L i : Nat)
    (st : TrainerState) (h : cfg.valid_steps = 0) :
    (trainBatchRest cfg hv L i st).1.n_saves = st.n_saves := by
  unfold trainBatchRest
  split
  · cases hv <;> simp [runValid_valid_steps_zero _ _ _ h]
  · rfl

theorem trainBatch_saves (cfg : TrainerConfig) (hv : Bool) (L i : Nat)
    (st : TrainerState) (h : cfg.valid_steps = 0) :
    (trainBatch cfg hv L i st).1.n_saves = st.n_saves := by
  unfold trainBatch
  split
  · dsimp only
    split
    · rfl
    · exact trainBatchRest_saves cfg hv L i _ h
  · exact trainBatchRest_saves cfg hv L i st h

theorem trainLoopGo_saves (cfg : TrainerConfig) (hv : Bool) (L : Nat)
    (l : List Nat) (st : TrainerState) (h : cfg.valid_steps = 0) :
    (trainLoopGo cfg hv L l st).n_saves = st.n_saves := by
  induction l generalizing st with
  | nil => rfl
  | cons i rest ih =>
    unfold trainLoopGo
    dsimp only
    split
    · exact trainBatch_saves cfg hv L i st h
    · rw [ih]
      exact trainBatch_saves cfg hv L i st h

theorem trainEpoch_saves (cfg : TrainerConfig) (hv : Bool) (L : Nat)
    (st : TrainerState) (h : cfg.valid_steps = 0) :
    (trainEpoch cfg hv L st).1.n_saves = st.n_saves := by
  unfold trainEpoch
  simp [trainLoopGo_saves cfg hv L _ _ h]

theorem runValidIf_disabled (cfg : TrainerConfig) (hv : Bool)
    (st : TrainerState) (m : VMode) (h : cfg.valid_steps = 0) :
    (if hv then runValid cfg st m else (st, false)) = (st, false) := by
  cases hv
  · rfl
  · exact runValid_valid_steps_zero cfg st m h

theorem fitEpochs_saves (cfg : TrainerConfig) (hv : Bool) (L : Nat)
    (l : List Nat) (st : TrainerState) (h : cfg.valid_steps = 0) :
    (fitEpochs cfg hv L l st).n_saves = st.n_saves := by
  induction l generalizing st with
  | nil => rfl
  | cons i rest ih =>
    unfold fitEpochs
    dsimp only
    rw [runValidIf_disabled cfg hv _ _ h]
    dsimp only
    split
    · simp [trainEpoch_saves cfg hv L st h]
    · rw [ih]
      simp [trainEpoch_saves cfg hv L st h]

/-- C6: with `valid_steps = 0`, every `_valid` call returns `False`
without touching the state (in particular it never reaches the checkpoint
write), and a whole `fit` run writes no checkpoint regardless of how many
epochs or steps it executes. -/
theorem c6_valid_steps_zero_no_stop_no_checkpoint (cfg : TrainerConfig)
    (st : TrainerState) (m : VMode) (hv : Bool) (L : Nat)
    (st' : TrainerState) (h : cfg.valid_steps = 0) :
    runValid cfg st m = (st, false) ∧
    (fit cfg hv L st').2.n_saves = st'.n_saves := by
  refine ⟨runValid_valid_steps_zero cfg st m h, ?_⟩
  unfold fit
  split
  · rfl
  · simp only
    split <;> simp [fitEpochs_saves cfg hv L _ _ h]

/-- C6 witness: a concrete disabled-validation call. -/
def cfgValidOff : TrainerConfig :=
  { accumulation_steps := 1, max_steps := none, epochs_cfg := 2
    valid_steps := 0, valid_strategy := .step, stopping_steps := 2, is_save := true }

theorem c6_valid_steps_zero_witness :
    cfgValidOff.valid_steps = 0 ∧
    runValid cfgValidOff initState .step = (initState, false) ∧
    (fit cfgValidOff true 3 initState).2.n_saves = initState.n_saves :=
  ⟨rfl,
    (c6_valid_steps_zero_no_stop_no_checkpoint cfgValidOff initState .step
      true 3 initState rfl).1,
    (c6_valid_steps_zero_no_stop_no_checkpoint cfgValidOff initState .step
      true 3 initState rfl).2⟩

/-! ## Claim C7 -/

/-- C7: a test-mode `evaluate` (`is_valid = False`, `load_best_model =
True`) whose resolved checkpoint path (`model_file`, or the default
best-pointer path) does not exist returns `None` after logging, on a path
with no raise; and a validation-mode call (`is_valid = True`) never loads
a checkpoint, whatever the other arguments. -/
theorem c7_evaluate_missing_file (env : EvalEnv) (mf : Option String)
    (h : env.fs.contains (mf.getD (env.saved_model_filename ++ ".pth")) = false) :
    evaluate env true mf false = (none, false) ∧
    (∀ lbm mf2, (evaluate env lbm mf2 true).2 = false) := by
  constructor
  · unfold evaluate
    dsimp only
    rw [h]
    simp
  · intro lbm mf2
    unfold evaluate evaluateBody
    simp

/-- C7 witness: an empty filesystem with an explicit model file. -/
def envNoFile : EvalEnv :=
  { fs := [], saved_model_filename := "saved/model", paraphrase := false
    corpus_len := 0, generated := [], metrics := [] }

theorem c7_evaluate_missing_file_witness :
    envNoFile.fs.contains ((some "gone.pth").getD
      (envNoFile.saved_model_filename ++ ".pth")) = false ∧
    evaluate envNoFile true (some "gone.pth") false = (none, false) :=
  ⟨rfl, (c7_evaluate_missing_file envNoFile (some "gone.pth") rfl).1⟩

/-! ## Claim C8 -/

/-- Configuration of a run that completes with zero validations:
validation data absent, one configured epoch, no max-steps budget. -/
def cfgNoValidData : TrainerConfig :=
  { accumulation_steps := 1, max_steps := none, epochs_cfg := 1
    valid_steps := 1, valid_strategy := .epoch, stopping_steps := 0, is_save := true }

/-- C8: a `fit` run that completes with zero validations does not
terminate normally with a final result — the closing
`best_valid_result` lookup `valid_result_dict[best_valid_timestamp.valid_epoch]`
raises `KeyError` on the empty mapping (trainer.py lines 174-177 and 471),
contradicting the claim.  The final state confirms that the run performed
no validation and wrote no checkpoint. -/
theorem c8_fit_zero_validations_keyerror :
    (fit cfgNoValidData false 2 initState).1 = .error .keyError ∧
    (fit cfgNoValidData false 2 initState).2.valid_result_dict = [] ∧
    (fit cfgNoValidData false 2 initState).2.n_saves = 0 :=
  ⟨rfl, rfl, rfl⟩

/-! ## Claim C10 -/

/-- Configuration with a nonzero max-steps budget smaller than what two
configured epochs would allow. -/
def cfgFloatEpochs : TrainerConfig :=
  { accumulation_steps := 1, max_steps := some 7, epochs_cfg := 2
    valid_steps := 1, valid_strategy := .epoch, stopping_steps := 0, is_save := true }

/-- C10: with nonzero `max_steps` the constructor does set the epoch-loop
bound to `1e10`, ignoring the configured epochs — but `1e10` is a Python
float, so `range(start_epoch, self.epochs)` in `fit` raises `TypeError`
before the first epoch: training does not in fact continue until the
max-steps budget halts it. -/
theorem c10_epoch_bound_float_typeerror :
    initEpochs 2 (some 7) = PyNum.float 10000000000 ∧
    initEpochs 2 none = PyNum.int 2 ∧
    (fit cfgFloatEpochs true 3 initState).1 = .error .typeError :=
  ⟨rfl, rfl, rfl⟩

/-! ## Claim C4 -/

/-- Configuration with `max_steps = 1` and early stopping disabled. -/
def cfgMaxOne : TrainerConfig :=
  { accumulation_steps := 1, max_steps := some 1, epochs_cfg := 3
    valid_steps := 1, valid_strategy := .epoch, stopping_steps := 0, is_save := true }

/-- C4: a run with `max_steps = m > 0` never reaches the budget check in
`_train_epoch`: because `max_steps` is truthy the constructor sets
`self.epochs` to the float `1e10`, and `fit` raises `TypeError` at
`range(self.start_epoch, self.epochs)` before any training step, so no
"max-steps" halt is ever reported.  The final state confirms that not a
single optimizer step ran. -/
theorem c4_max_steps_run_typeerror :
    pyTruthy cfgMaxOne.max_steps = true ∧
    (fit cfgMaxOne true 2 initState).1 = .error .typeError ∧
    (fit cfgMaxOne true 2 initState).2.n_opt_step = 0 ∧
    (fit cfgMaxOne true 2 initState).2.n_new_step = 0 :=
  ⟨rfl, rfl, rfl, rfl⟩

/-! ## Claim C1 -/

/-- A validation summary recorded at valid epoch 1. -/
def c1Summary : EpochTracker := ⟨5, [("bleu", 10)], true⟩

/-- A trainer state right after its first validation: the summary mapping
holds one entry at the current valid epoch. -/
def c1State : TrainerState :=
  { tracker := ⟨⟨7, 2, 1⟩, some .train, some emptySummary, 9, ⟨7, 2, 1⟩⟩
    stopped := false
    stopping_count := 3
    valid_count := 1
    valid_result_dict := [(1, c1Summary)]
    start_epoch := 0
    train_loss_list := []
    oracle := []
    n_new_step := 7
    n_opt_step := 7
    n_loss := 7
    n_saves := 1 }

/-- The checkpoint `_get_checkpoint` builds at `c1State`. -/
def c1Ck : Checkpoint :=
  { stopping_count := 3, best_valid_score := 9, epoch := 2
    timestamp := ⟨7, 2, 1⟩, summary := c1Summary }

/-- A freshly constructed trainer's resumable attributes. -/
def c1Fresh : ResumeView :=
  { start_epoch := 0, axes := ⟨0, 0, 0⟩, stopping_count := 0
    best_valid_score := 0, valid_result_dict := .dict [] }

/-- C1: saving a checkpoint after a validation and resuming from it
restores `start_epoch` to the saved epoch + 1 and restores
`stopping_count` and `best_valid_score` exactly — but not
`valid_result_dict`: the checkpoint's `summary` key holds only the single
current-epoch summary (line 351), and `resume_checkpoint` assigns that
bare summary to `valid_result_dict` (line 404), so the restored value
differs from the pre-save mapping. -/
theorem c1_checkpoint_roundtrip_drops_dict :
    getCheckpoint c1State = .ok (some c1Ck) ∧
    (resumeCheckpoint true c1Fresh c1Ck).start_epoch =
      c1State.tracker.axes.train_epoch + 1 ∧
    (resumeCheckpoint true c1Fresh c1Ck).stopping_count =
      c1State.stopping_count ∧
    (resumeCheckpoint true c1Fresh c1Ck).best_valid_score =
      c1State.tracker.best_valid_score ∧
    (resumeCheckpoint true c1Fresh c1Ck).axes = c1State.tracker.axes ∧
    (resumeCheckpoint true c1Fresh c1Ck).valid_result_dict ≠
      .dict c1State.valid_result_dict :=
  ⟨rfl, rfl, rfl, rfl, rfl, by decide⟩

/-! ## Claim C2 -/

/-- With early stopping disabled (`stopping_steps` falsy), a `_valid` call
never signals a stop and leaves the train-step axis, the current scope
mode, the `stopped` flag and the two step counters unchanged. -/
theorem runValid_no_earlystop (cfg : TrainerConfig) (st : TrainerState)
    (m : VMode) (hss : cfg.stopping_steps = 0) :
    (runValid cfg st m).2 = false ∧
    (runValid cfg st m).1.stopped = st.stopped ∧
    (runValid cfg st m).1.tracker.current_mode = st.tracker.current_mode ∧
    (runValid cfg st m).1.tracker.axes.train_step = st.tracker.axes.train_step ∧
    (runValid cfg st m).1.n_new_step = st.n_new_step ∧
    (runValid cfg st m).1.n_opt_step = st.n_opt_step := by
  unfold runValid nextOutcome newEpochEnter newEpochExit recordValidOutcome
  repeat' split <;> simp_all

/-- Effect of the tail of one micro-batch: no stop is signalled, the mode
stays `train`, `new_step` is not called, and the optimizer steps exactly on
the last micro-batch of an accumulation group or of the loader. -/
theorem trainBatchRest_step (cfg : TrainerConfig) (hv : Bool) (L i : Nat)
    (st : TrainerState) (hss : cfg.stopping_steps = 0)
    (hstop : st.stopped = false)
    (hmode : st.tracker.current_mode = some .train) :
    (trainBatchRest cfg hv L i st).2 = false ∧
    (trainBatchRest cfg hv L i st).1.stopped = false ∧
    (trainBatchRest cfg hv L i st).1.tracker.current_mode = some .train ∧
    (trainBatchRest cfg hv L i st).1.n_new_step = st.n_new_step ∧
    (trainBatchRest cfg hv L i st).1.n_opt_step =
      st.n_opt_step +
        (if (i + 1) % cfg.accumulation_steps == 0 || i + 1 == L then 1 else 0) ∧
    (trainBatchRest cfg hv L i st).1.tracker.axes.train_step =
      st.tracker.axes.train_step := by
  unfold trainBatchRest
  dsimp only
  split
  · rename_i hcond
    cases hv
    · simp_all
    · have hval := runValid_no_earlystop cfg
        { st with n_loss := st.n_loss + 1, n_opt_step := st.n_opt_step + 1 }
        .step hss
      simp_all
  · rename_i hcond
    simp only [decide_eq_true_eq, Bool.or_eq_true] at hcond
    push_neg at hcond
    simp_all [Nat.ne_of_lt]

/-- Effect of one full micro-batch iteration under no max-steps budget and
disabled early stopping: the loop never breaks, and `new_step` (hence the
train-step axis) advances exactly on the first micro-batch of each
accumulation group. -/
theorem trainBatch_step (cfg : TrainerConfig) (hv : Bool) (L i : Nat)
    (st : TrainerState) (hmax : cfg.max_steps = none)
    (hss : cfg.stopping_steps = 0) (hstop : st.stopped = false)
    (hmode : st.tracker.current_mode = some .train) :
    (trainBatch cfg hv L i st).2 = false ∧
    (trainBatch cfg hv L i st).1.stopped = false ∧
    (trainBatch cfg hv L i st).1.tracker.current_mode = some .train ∧
    (trainBatch cfg hv L i st).1.n_new_step =
      st.n_new_step + (if i % cfg.accumulation_steps == 0 then 1 else 0) ∧
    (trainBatch cfg hv L i st).1.n_opt_step =
      st.n_opt_step +
        (if (i + 1) % cfg.accumulation_steps == 0 || i + 1 == L then 1 else 0) ∧
    (trainBatch cfg hv L i st).1.tracker.axes.train_step =
      st.tracker.axes.train_step +
        (if i % cfg.accumulation_steps == 0 then 1 else 0) := by
  unfold trainBatch
  split
  · rename_i hvsplit
    dsimp only
    rw [hmax]
    simp only [pyEqNatOpt, Bool.false_eq_true, if_false]
    have hrest := trainBatchRest_step cfg hv L i
      { st with tracker := newStep st.tracker, n_new_step := st.n_new_step + 1 }
      hss hstop (by simp [newStep, hmode])
    simp only [newStep, hmode] at hrest ⊢
    simp_all
  · rename_i hvsplit
    have hrest := trainBatchRest_step cfg hv L i st hss hstop hmode
    simp_all

/-- Loop invariant of the batch loop of `_train_epoch` over the index
range `[i, i+n)`, under no max-steps budget and disabled early stopping:
the loop never breaks, and the two ghost counters and the train-step axis
advance by the number of group-first (resp. group-last) indices. -/
theorem trainLoopGo_counts (cfg : TrainerConfig) (hv : Bool) (L : Nat)
    (hmax : cfg.max_steps = none) (hss : cfg.stopping_steps = 0) :
    ∀ (n i : Nat) (st : TrainerState), st.stopped = false →
      st.tracker.current_mode = some .train →
      (trainLoopGo cfg hv L (List.range' i n) st).stopped = false ∧
      (trainLoopGo cfg hv L (List.range' i n) st).tracker.current_mode = some .train ∧
      (trainLoopGo cfg hv L (List.range' i n) st).n_new_step =
        st.n_new_step +
          (List.range' i n).countP (fun j => j % cfg.accumulation_steps == 0) ∧
      (trainLoopGo cfg hv L (List.range' i n) st).n_opt_step =
        st.n_opt_step +
          (List.range' i n).countP
            (fun j => (j + 1) % cfg.accumulation_steps == 0 || j + 1 == L) ∧
      (trainLoopGo cfg hv L (List.range' i n) st).tracker.axes.train_step =
        st.tracker.axes.train_step +
          (List.range' i n).countP (fun j => j % cfg.accumulation_steps == 0) := by
  intro n
  induction n with
  | zero => intro i st hstop hmode; simp [trainLoopGo, hstop, hmode]
  | succ n ih =>
    intro i st hstop hmode
    rw [List.range'_succ]
    have hb := trainBatch_step cfg hv L i st hmax hss hstop hmode
    unfold trainLoopGo
    dsimp only
    rw [hb.1]
    simp only [Bool.false_eq_true, if_false]
    have hrec := ih (i + 1) (trainBatch cfg hv L i st).1 hb.2.1 hb.2.2.1
    refine ⟨hrec.1, hrec.2.1, ?_, ?_, ?_⟩
    · rw [hrec.2.2.1, hb.2.2.2.1, List.countP_cons]
      omega
    · rw [hrec.2.2.2.1, hb.2.2.2.2.1, List.countP_cons]
      omega
    · rw [hrec.2.2.2.2, hb.2.2.2.2.2, List.countP_cons]
      omega

/-- Ceiling-division step: `⌈(L+1)/k⌉ = ⌈L/k⌉ + [k ∣ L]`. -/
theorem ceil_div_step (k L : Nat) (hk : 0 < k) :
    (L + 1 + k - 1) / k = (L + k - 1) / k + if L % k = 0 then 1 else 0 := by
  have h1 : L + 1 + k - 1 = L + k - 1 + 1 := by omega
  rw [h1, Nat.succ_div]
  have h2 : L + k - 1 + 1 = L + k := by omega
  rw [h2]
  congr 1
  simp [Nat.dvd_add_self_right, Nat.dvd_iff_mod_eq_zero]

/-- The number of group-first indices below `L` is `⌈L/k⌉`. -/
theorem countP_groupFirst (k : Nat) (hk : 0 < k) (L : Nat) :
    (List.range L).countP (fun j => j % k == 0) = (L + k - 1) / k := by
  induction L with
  | zero =>
    simp only [List.range_zero, List.countP_nil, Nat.zero_add]
    rw [Nat.div_eq_of_lt (show k - 1 < k by omega)]
  | succ L ih =>
    rw [List.range_succ, List.countP_append, ih, ceil_div_step k L hk]
    simp [List.countP_cons, beq_iff_eq]

/-- The number of strict group-last indices below `M` is `⌊M/k⌋`. -/
theorem countP_groupLastAux (k : Nat) (M : Nat) :
    (List.range M).countP (fun j => (j + 1) % k == 0) = M / k := by
  induction M with
  | zero => simp
  | succ M ih =>
    rw [List.range_succ, List.countP_append, ih, Nat.succ_div]
    simp [List.countP_cons, beq_iff_eq, Nat.dvd_iff_mod_eq_zero]

/-- The number of optimizer-stepping indices below `L` (group-last, or the
final micro-batch) is `⌈L/k⌉`. -/
theorem countP_groupLast (k : Nat) (hk : 0 < k) (L : Nat) :
    (List.range L).countP (fun j => (j + 1) % k == 0 || j + 1 == L) =
      (L + k - 1) / k := by
  cases L with
  | zero =>
    simp only [List.range_zero, List.countP_nil, Nat.zero_add]
    rw [Nat.div_eq_of_lt (show k - 1 < k by omega)]
  | succ M =>
    rw [List.range_succ, List.countP_append]
    have h1 : (List.range M).countP
          (fun j => (j + 1) % k == 0 || j + 1 == M + 1) =
        (List.range M).countP (fun j => (j + 1) % k == 0) := by
      apply List.countP_congr
      intro x hx
      rw [List.mem_range] at hx
      simp only [Bool.or_eq_true, beq_iff_eq]
      constructor
      · rintro (h | h)
        · exact h
        · omega
      · exact fun h => Or.inl h
    rw [h1, countP_groupLastAux k M]
    have h2 : (M + 1 + k - 1) / k = M / k + 1 := by
      have h3 : M + 1 + k - 1 = M + k := by omega
      rw [h3, Nat.add_div_right _ hk]
    rw [h2]
    simp

/-- C2: with positive `accumulation_steps = k`, a loader of length `L`, no
max-steps budget and no validation-triggered stop (early stopping
disabled), one `_train_epoch` steps the optimizer exactly `⌈L/k⌉` times,
calls `new_step` exactly `⌈L/k⌉` times (once per accumulation group, not
once per micro-batch), and advances the train-step axis by the same
amount. -/
theorem c2_accumulation_counts (cfg : TrainerConfig) (hv : Bool) (L : Nat)
    (st : TrainerState) (hk : 0 < cfg.accumulation_steps)
    (hmax : cfg.max_steps = none) (hss : cfg.stopping_steps = 0)
    (hstop : st.stopped = false) (hnew : st.n_new_step = 0)
    (hopt : st.n_opt_step = 0) :
    (trainEpoch cfg hv L st).1.n_opt_step =
      (L + cfg.accumulation_steps - 1) / cfg.accumulation_steps ∧
    (trainEpoch cfg hv L st).1.n_new_step =
      (L + cfg.accumulation_steps - 1) / cfg.accumulation_steps ∧
    (trainEpoch cfg hv L st).1.tracker.axes.train_step =
      st.tracker.axes.train_step +
        (L + cfg.accumulation_steps - 1) / cfg.accumulation_steps := by
  unfold trainEpoch
  dsimp only
  have hloop := trainLoopGo_counts cfg hv L hmax hss L 0
    { st with tracker := newEpochEnter .train st.tracker }
    (by simp [hstop]) (by simp [newEpochEnter])
  rw [← List.range_eq_range'] at hloop
  simp only [newEpochExit]
  refine ⟨?_, ?_, ?_⟩
  · rw [hloop.2.2.2.1]
    simp [hopt, countP_groupLast cfg.accumulation_steps hk L]
  · rw [hloop.2.2.1]
    simp [hnew, countP_groupFirst cfg.accumulation_steps hk L]
  · rw [hloop.2.2.2.2]
    simp [newEpochEnter, countP_groupFirst cfg.accumulation_steps hk L]

/-- C2 witness: `k = 2`, `L = 5` gives exactly `⌈5/2⌉ = 3` optimizer steps
and 3 `new_step` calls. -/
def cfgAccum : TrainerConfig :=
  { accumulation_steps := 2, max_steps := none, epochs_cfg := 1
    valid_steps := 1, valid_strategy := .step, stopping_steps := 0, is_save := true }

theorem c2_accumulation_counts_witness :
    0 < cfgAccum.accumulation_steps ∧
    (trainEpoch cfgAccum true 5 initState).1.n_opt_step = 3 ∧
    (trainEpoch cfgAccum true 5 initState).1.n_new_step = 3 ∧
    (trainEpoch cfgAccum true 5 initState).1.tracker.axes.train_step = 3 :=
  ⟨by decide,
    (c2_accumulation_counts cfgAccum true 5 initState (by decide) rfl rfl
      rfl rfl rfl).1,
    (c2_accumulation_counts cfgAccum true 5 initState (by decide) rfl rfl
      rfl rfl rfl).2.1,
    (c2_accumulation_counts cfgAccum true 5 initState (by decide) rfl rfl
      rfl rfl rfl).2.2⟩

/-! ## Claim C3 -/

/-- Validation-granularity view of a training run: apply `_early_stopping`
after each completed validation, in order (exactly what `_valid` does when
`stopping_steps` is nonzero), halting at the first stop signal (whereupon
`_train_epoch` and `fit` break out of their loops, so no further
validation runs).  Returns the final stopping count and the index of the
stopping validation, if any. -/
def runValidations (s : Nat) (count : Nat) : List Bool → Nat × Option Nat
  | [] => (count, none)
  | b :: rest =>
    let r := earlyStopping s count b
    if r.2 then (r.1, some 0)
    else
      let q := runValidations s r.1 rest
      (q.1, q.2.map (· + 1))

/-- Folding counterpart of the stopping counter: the counter value after
processing a list of is-best outcomes starting from `c`. -/
def streakFrom (c : Nat) (l : List Bool) : Nat :=
  l.foldl (fun a b => if b then 0 else a + 1) c

/-- Declarative reading of the stopping counter: the number of consecutive
non-best validations at the end of the sequence. -/
def trailingNonBest (l : List Bool) : Nat :=
  (l.reverse.takeWhile (fun b => !b)).length

theorem streakFrom_cons (c : Nat) (b : Bool) (t : List Bool) :
    streakFrom c (b :: t) = streakFrom (if b then 0 else c + 1) t := rfl

theorem trailing_eq_streak (l : List Bool) :
    trailingNonBest l = streakFrom 0 l := by
  induction l using List.reverseRecOn with
  | nil => rfl
  | append_singleton t b ih =>
    cases b
    · have h1 : trailingNonBest (t ++ [false]) = trailingNonBest t + 1 := by
        simp [trailingNonBest, List.reverse_append, List.takeWhile_cons]
      have h2 : streakFrom 0 (t ++ [false]) = streakFrom 0 t + 1 := by
        simp [streakFrom, List.foldl_append]
      rw [h1, h2, ih]
    · have h1 : trailingNonBest (t ++ [true]) = 0 := by
        simp [trailingNonBest, List.reverse_append, List.takeWhile_cons]
      have h2 : streakFrom 0 (t ++ [true]) = 0 := by
        simp [streakFrom, List.foldl_append]
      rw [h1, h2]

theorem earlyStopping_fst (s c : Nat) (b : Bool) :
    (earlyStopping s c b).1 = if b then 0 else c + 1 := by
  cases b <;> simp [earlyStopping]

theorem earlyStopping_snd (s c : Nat) (b : Bool) :
    (earlyStopping s c b).2 = decide (s < if b then 0 else c + 1) := by
  cases b <;> simp [earlyStopping]

/-- The driver signals a stop at index `i` exactly when the stopping
counter first exceeds the threshold there. -/
theorem runValidations_stop_iff (s : Nat) (l : List Bool) :
    ∀ (c : Nat), c ≤ s → ∀ i,
      ((runValidations s c l).2 = some i ↔
        (s < streakFrom c (l.take (i + 1)) ∧
         ∀ j < i, streakFrom c (l.take (j + 1)) ≤ s)) := by
  induction l with
  | nil =>
    intro c hc i
    simp only [runValidations, List.take_nil]
    constructor
    · intro h
      exact absurd h (by simp)
    · rintro ⟨h1, -⟩
      exact absurd h1 (by simp [streakFrom]; omega)
  | cons b rest ih =>
    intro c hc i
    unfold runValidations
    dsimp only
    rw [earlyStopping_fst, earlyStopping_snd]
    simp only [decide_eq_true_eq]
    by_cases hstop : s < if b then 0 else c + 1
    · rw [if_pos hstop]
      cases i with
      | zero =>
        simp only [List.take_succ_cons, List.take_zero]
        constructor
        · intro _
          refine ⟨?_, fun j hj => absurd hj (Nat.not_lt_zero j)⟩
          simpa [streakFrom] using hstop
        · intro _
          trivial
      | succ m =>
        simp only [List.take_succ_cons]
        constructor
        · intro h
          exact absurd h (by simp)
        · rintro ⟨-, h2⟩
          have h0 := h2 0 (Nat.succ_pos m)
          simp only [List.take_succ_cons, List.take_zero] at h0
          simp [streakFrom] at h0
          omega
    · rw [if_neg hstop]
      have hc2 : (if b then 0 else c + 1) ≤ s := Nat.le_of_not_lt hstop
      cases i with
      | zero =>
        simp only [List.take_succ_cons, List.take_zero]
        constructor
        · intro h
          exfalso
          rcases Option.map_eq_some'.mp h with ⟨x, -, hplus⟩
          omega
        · rintro ⟨h1, -⟩
          exfalso
          simp [streakFrom] at h1
          omega
      | succ m =>
        simp only [List.take_succ_cons]
        have hih := ih (if b then 0 else c + 1) hc2 m
        constructor
        · intro h
          rcases Option.map_eq_some'.mp h with ⟨x, hx, hplus⟩
          have hxm : x = m := by omega
          rw [hxm] at hx
          have hmain := hih.mp hx
          refine ⟨by simpa [streakFrom_cons] using hmain.1, ?_⟩
          intro j hj
          cases j with
          | zero =>
            simp only [List.take_succ_cons, List.take_zero]
            simp only [streakFrom_cons]
            simpa [streakFrom] using hc2
          | succ j' =>
            have hj' : j' < m := by omega
            have hh := hmain.2 j' hj'
            simpa [streakFrom_cons] using hh
        · rintro ⟨h1, h2⟩
          have hx : (runValidations s (if b then 0 else c + 1) rest).2 = some m := by
            apply hih.mpr
            refine ⟨by simpa [streakFrom_cons] using h1, ?_⟩
            intro j hj
            have hh := h2 (j + 1) (by omega)
            simpa [List.take_succ_cons, streakFrom_cons] using hh
          simp [hx]

/-- When the driver never signals a stop, the final counter equals the
trailing non-best streak and the threshold was never exceeded. -/
theorem runValidations_none (s : Nat) (l : List Bool) :
    ∀ c, c ≤ s → (runValidations s c l).2 = none →
      ((runValidations s c l).1 = streakFrom c l ∧
       ∀ j, streakFrom c (l.take (j + 1)) ≤ s) := by
  induction l with
  | nil =>
    intro c hc _
    refine ⟨rfl, fun j => ?_⟩
    simpa [streakFrom] using hc
  | cons b rest ih =>
    intro c hc h
    unfold runValidations at h ⊢
    dsimp only at h ⊢
    rw [earlyStopping_fst, earlyStopping_snd] at h ⊢
    simp only [decide_eq_true_eq] at h ⊢
    by_cases hstop : s < if b then 0 else c + 1
    · rw [if_pos hstop] at h
      exact absurd h (by simp)
    · rw [if_neg hstop] at h ⊢
      have hc2 : (if b then 0 else c + 1) ≤ s := Nat.le_of_not_lt hstop
      have hq : (runValidations s (if b then 0 else c + 1) rest).2 = none := by
        rcases hqq : (runValidations s (if b then 0 else c + 1) rest).2 with - | x
        · rfl
        · rw [hqq] at h
          exact absurd h (by simp)
      have hrec := ih (if b then 0 else c + 1) hc2 hq
      refine ⟨by simpa [streakFrom_cons] using hrec.1, ?_⟩
      intro j
      cases j with
      | zero =>
        simp only [List.take_succ_cons, List.take_zero, streakFrom_cons]
        simpa [streakFrom] using hc2
      | succ j' =>
        have hh := hrec.2 j'
        simp only [List.take_succ_cons]
        simpa [streakFrom_cons] using hh

/-- C3: with `stopping_steps = s > 0`, the stopping counter changes only
by the two rules of `_early_stopping` (reset to 0 on a best validation,
+1 on a non-best one), and the run's validation sequence stops exactly at
the first validation where the trailing streak of consecutive non-best
validations exceeds `s`; when no stop is signalled the streak never
exceeded `s` and the final counter equals the trailing streak. -/
theorem c3_early_stopping_first_exceed (s : Nat) (hs : 0 < s) (l : List Bool) :
    (∀ c b, (earlyStopping s c b).1 = if b then 0 else c + 1) ∧
    (∀ i, (runValidations s 0 l).2 = some i ↔
      (s < trailingNonBest (l.take (i + 1)) ∧
       ∀ j < i, trailingNonBest (l.take (j + 1)) ≤ s)) ∧
    ((runValidations s 0 l).2 = none →
      (runValidations s 0 l).1 = trailingNonBest l ∧
      ∀ j, trailingNonBest (l.take (j + 1)) ≤ s) := by
  refine ⟨earlyStopping_fst s, ?_, ?_⟩
  · intro i
    simp only [trailing_eq_streak]
    exact runValidations_stop_iff s l 0 (Nat.zero_le s) i
  · intro h
    have hrec := runValidations_none s l 0 (Nat.zero_le s) h
    constructor
    · rw [trailing_eq_streak]
      exact hrec.1
    · intro j
      rw [trailing_eq_streak]
      exact hrec.2 j

/-- C3 witness: threshold 1, outcomes best, non-best, non-best: the run
stops at the third validation, the first whose trailing non-best streak
(2) exceeds the threshold. -/
theorem c3_early_stopping_first_exceed_witness :
    0 < 1 ∧
    ((runValidations 1 0 [true, false, false]).2 = some 2 ↔
      (1 < trailingNonBest ([true, false, false].take 3) ∧
       ∀ j < 2, trailingNonBest ([true, false, false].take (j + 1)) ≤ 1)) ∧
    (runValidations 1 0 [true, false, false]).2 = some 2 :=
  ⟨Nat.one_pos,
    (c3_early_stopping_first_exceed 1 Nat.one_pos [true, false, false]).2.1 2,
    by decide⟩

/-! ## Claim C9 -/

theorem containsSEP_cons (c : Char) (t : List Char) :
    containsSEP (c :: t) = (sepChars.isPrefixOf (c :: t) || containsSEP t) := rfl

theorem beforeSEP_cons (c : Char) (t : List Char) :
    beforeSEP (c :: t) =
      if sepChars.isPrefixOf (c :: t) then [] else c :: beforeSEP t := rfl

theorem afterSEP_cons (c : Char) (t : List Char) :
    afterSEP (c :: t) =
      if sepChars.isPrefixOf (c :: t) then t.drop 4 else afterSEP t := rfl

theorem splitSEPGo_nil (f : Nat) (cur : List Char) :
    splitSEPGo f [] cur = [cur.reverse] := by
  cases f <;> rfl

/-- The split scanner ignores the exact fuel as long as it covers the
string length. -/
theorem splitSEPGo_fuel (f₁ : Nat) :
    ∀ (f₂ : Nat) (s cur : List Char), s.length ≤ f₁ → s.length ≤ f₂ →
      splitSEPGo f₁ s cur = splitSEPGo f₂ s cur := by
  induction f₁ with
  | zero =>
    intro f₂ s cur h1 _
    have hs : s = [] := List.length_eq_zero.mp (Nat.le_zero.mp h1)
    subst hs
    rw [splitSEPGo_nil, splitSEPGo_nil]
  | succ f ih =>
    intro f₂ s cur h1 h2
    cases s with
    | nil => rw [splitSEPGo_nil, splitSEPGo_nil]
    | cons c t =>
      cases f₂ with
      | zero => simp at h2
      | succ g =>
        unfold splitSEPGo
        by_cases hp : sepChars.isPrefixOf (c :: t)
        · rw [if_pos hp, if_pos hp]
          have hd1 : (t.drop 4).length ≤ f := by
            simp only [List.length_drop]
            simp only [List.length_cons] at h1
            omega
          have hd2 : (t.drop 4).length ≤ g := by
            simp only [List.length_drop]
            simp only [List.length_cons] at h2
            omega
          rw [ih g (t.drop 4) [] hd1 hd2]
        · rw [if_neg hp, if_neg hp]
          have ht1 : t.length ≤ f := by
            simp only [List.length_cons] at h1
            omega
          have ht2 : t.length ≤ g := by
            simp only [List.length_cons] at h2
            omega
          rw [ih g t (c :: cur) ht1 ht2]

/-- Characterization of the split scanner: the first emitted field is the
text before the first separator, and the remaining fields are the split of
the text after it. -/
theorem splitSEPGo_spec (f : Nat) :
    ∀ (s cur : List Char), s.length ≤ f →
      splitSEPGo f s cur =
        if containsSEP s then
          (cur.reverse ++ beforeSEP s) :: splitSEP (afterSEP s)
        else [cur.reverse ++ s] := by
  induction f with
  | zero =>
    intro s cur h
    have hs : s = [] := List.length_eq_zero.mp (Nat.le_zero.mp h)
    subst hs
    rw [splitSEPGo_nil]
    simp [containsSEP]
  | succ f ih =>
    intro s cur h
    cases s with
    | nil =>
      rw [splitSEPGo_nil]
      simp [containsSEP]
    | cons c t =>
      unfold splitSEPGo
      by_cases hp : sepChars.isPrefixOf (c :: t)
      · rw [if_pos hp]
        have hc : containsSEP (c :: t) = true := by
          rw [containsSEP_cons, hp, Bool.true_or]
        rw [hc, if_pos rfl, beforeSEP_cons, if_pos hp, afterSEP_cons, if_pos hp]
        simp only [List.append_nil]
        congr 1
        unfold splitSEP
        apply splitSEPGo_fuel
        · simp only [List.length_drop]
          simp only [List.length_cons] at h
          omega
        · exact le_refl _
      · rw [if_neg hp]
        have ht : t.length ≤ f := by
          simp only [List.length_cons] at h
          omega
        rw [ih t (c :: cur) ht]
        have hc : containsSEP (c :: t) = containsSEP t := by
          rw [containsSEP_cons]
          cases hq : sepChars.isPrefixOf (c :: t)
          · rw [Bool.false_or]
          · exact absurd hq hp
        rw [hc, beforeSEP_cons, if_neg hp, afterSEP_cons, if_neg hp]
        by_cases h2 : containsSEP t
        · rw [if_pos h2, if_pos h2]
          simp [List.reverse_cons]
        · rw [if_neg h2, if_neg h2]
          simp [List.reverse_cons]

theorem beforeSEP_isPrefix (s : List Char) : beforeSEP s <+: s := by
  induction s with
  | nil => exact List.nil_prefix
  | cons c t ih =>
    by_cases hp : sepChars.isPrefixOf (c :: t)
    · rw [beforeSEP_cons, if_pos hp]
      exact List.nil_prefix
    · rw [beforeSEP_cons, if_neg hp]
      exact List.cons_prefix_cons.mpr ⟨rfl, ih⟩

/-- The text before the first separator contains no separator. -/
theorem containsSEP_beforeSEP (s : List Char) :
    containsSEP (beforeSEP s) = false := by
  induction s with
  | nil => rfl
  | cons c t ih =>
    by_cases hp : sepChars.isPrefixOf (c :: t)
    · rw [beforeSEP_cons, if_pos hp]
      rfl
    · rw [beforeSEP_cons, if_neg hp, containsSEP_cons, ih, Bool.or_false]
      by_contra hcon
      rw [Bool.not_eq_false] at hcon
      have h1 : sepChars <+: c :: beforeSEP t :=
        List.isPrefixOf_iff_prefix.mp hcon
      have h2 : (c :: beforeSEP t) <+: (c :: t) :=
        List.cons_prefix_cons.mpr ⟨rfl, beforeSEP_isPrefix t⟩
      exact hp (List.isPrefixOf_iff_prefix.mpr (h1.trans h2))

/-- A string containing the separator decomposes as the text before its
first occurrence, the separator, and the text after it. -/
theorem decompSEP (s : List Char) (h : containsSEP s = true) :
    s = beforeSEP s ++ sepChars ++ afterSEP s := by
  induction s with
  | nil => exact absurd h (by simp [containsSEP])
  | cons c t ih =>
    by_cases hp : sepChars.isPrefixOf (c :: t)
    · rcases List.isPrefixOf_iff_prefix.mp hp with ⟨u, hu⟩
      rw [beforeSEP_cons, if_pos hp, afterSEP_cons, if_pos hp]
      have h5 : (sepChars ++ u).drop sepChars.length = u := List.drop_left _ _
      rw [hu] at h5
      have hdrop : t.drop 4 = u := by simpa [sepChars] using h5
      rw [hdrop, List.nil_append]
      exact hu.symm
    · rw [containsSEP_cons, Bool.or_eq_true] at h
      rcases h with h | h
      · exact absurd h hp
      · rw [beforeSEP_cons, if_neg hp, afterSEP_cons, if_neg hp]
        rw [List.cons_append, List.cons_append]
        exact congrArg (List.cons c) (ih h)

theorem beforeSEP_of_not_contains (s : List Char)
    (h : containsSEP s = false) : beforeSEP s = s := by
  induction s with
  | nil => rfl
  | cons c t ih =>
    rw [containsSEP_cons, Bool.or_eq_false_iff] at h
    rw [beforeSEP_cons, if_neg (by simp [h.1]), ih h.2]

/-- With a separator present, the post-processing returns the second field
of the separator split stripped: the text after the first separator and
before the next one (the whole tail when the separator is unique). -/
theorem paraphrasePost_contains (s : List Char) (h : containsSEP s = true) :
    paraphrasePost s = pyStrip (beforeSEP (afterSEP s)) := by
  unfold paraphrasePost
  rw [if_pos h]
  congr 1
  unfold splitSEP
  rw [splitSEPGo_spec s.length s [] (le_refl _), if_pos h]
  simp only [List.reverse_nil, List.nil_append]
  rw [List.getD_cons_succ]
  unfold splitSEP
  rw [splitSEPGo_spec (afterSEP s).length (afterSEP s) [] (le_refl _)]
  by_cases h2 : containsSEP (afterSEP s)
  · rw [if_pos h2]
    simp only [List.reverse_nil, List.nil_append]
    rw [List.getD_cons_zero]
  · rw [if_neg h2]
    simp only [List.reverse_nil, List.nil_append]
    rw [List.getD_cons_zero]
    exact (beforeSEP_of_not_contains _ (by simpa using h2)).symm

theorem lastIdxOf_cons (c x : Char) (t : List Char) :
    lastIdxOf c (x :: t) =
      match lastIdxOf c t with
      | some j => some (j + 1)
      | none => if x = c then some 0 else none := rfl

theorem lastIdxOf_append_some (c : Char) (a b : List Char) (j : Nat)
    (h : lastIdxOf c b = some j) :
    lastIdxOf c (a ++ b) = some (a.length + j) := by
  induction a with
  | nil => simpa using h
  | cons x t ih =>
    rw [List.cons_append, lastIdxOf_cons, ih]
    simp only [List.length_cons, Option.some.injEq]
    omega

theorem lastIdxOf_append_none (c : Char) (a b : List Char)
    (h : lastIdxOf c b = none) :
    lastIdxOf c (a ++ b) = lastIdxOf c a := by
  induction a with
  | nil => simpa using h
  | cons x t ih =>
    rw [List.cons_append, lastIdxOf_cons, ih, lastIdxOf_cons]

theorem lastIdxOf_eq_none (c : Char) (s : List Char)
    (h : ∀ x ∈ s, x ≠ c) : lastIdxOf c s = none := by
  induction s with
  | nil => rfl
  | cons x t ih =>
    rw [lastIdxOf_cons, ih (fun y hy => h y (List.mem_cons_of_mem x hy))]
    simp [h x (List.mem_cons_self x t)]

theorem lastIdxOf_lt_length (c : Char) (s : List Char) :
    ∀ j, lastIdxOf c s = some j → j < s.length := by
  induction s with
  | nil =>
    intro j h
    exact absurd h (by simp [lastIdxOf])
  | cons x t ih =>
    intro j h
    rw [lastIdxOf_cons] at h
    rcases ht : lastIdxOf c t with - | j'
    · rw [ht] at h
      by_cases hx : x = c
      · rw [if_pos hx] at h
        simp only [Option.some.injEq] at h
        simp only [List.length_cons]
        omega
      · rw [if_neg hx] at h
        exact absurd h (by simp)
    · rw [ht] at h
      simp only [Option.some.injEq] at h
      have hlt := ih j' ht
      simp only [List.length_cons]
      omega

/-- `rfind` of the last occurrence: when the tail after position `|u|`
holds no further occurrence, the result is exactly `|u|`. -/
theorem pyRFind_at_last (q : Char) (u w : List Char)
    (hwq : ∀ x ∈ w, x ≠ q) :
    pyRFindChar q (u ++ q :: w) = (u.length : Int) := by
  unfold pyRFindChar
  have h1 : lastIdxOf q (q :: w) = some 0 := by
    rw [lastIdxOf_cons, lastIdxOf_eq_none q w hwq]
    simp
  rw [lastIdxOf_append_some q u (q :: w) 0 h1]
  simp

/-- `rfind` of a character that does not occur at or after position `|u|`
is at most `|u|`. -/
theorem pyRFind_le (q p : Char) (u w : List Char) (hq : p ≠ q)
    (hwq : ∀ x ∈ w, x ≠ q) :
    pyRFindChar q (u ++ p :: w) ≤ (u.length : Int) := by
  unfold pyRFindChar
  have h1 : lastIdxOf q (p :: w) = none := by
    rw [lastIdxOf_cons, lastIdxOf_eq_none q w hwq]
    simp [hq]
  rw [lastIdxOf_append_none q u (p :: w) h1]
  rcases hu : lastIdxOf q u with - | j
  · simp only
    omega
  · simp only
    have hlt := lastIdxOf_lt_length q u j hu
    exact_mod_cast Nat.le_of_lt hlt

/-- The `max` of the two paren `rfind`s lands on the last parenthesis. -/
theorem rfind_paren_max (u w : List Char) (p : Char)
    (hp : p = '(' ∨ p = ')') (hw : ∀ x ∈ w, x ≠ '(' ∧ x ≠ ')') :
    max (pyRFindChar '(' (u ++ p :: w)) (pyRFindChar ')' (u ++ p :: w)) =
      (u.length : Int) := by
  rcases hp with hp | hp
  · subst hp
    rw [pyRFind_at_last '(' u w (fun x hx => (hw x hx).1)]
    exact max_eq_left
      (pyRFind_le ')' '(' u w (by decide) (fun x hx => (hw x hx).2))
  · subst hp
    rw [pyRFind_at_last ')' u w (fun x hx => (hw x hx).2)]
    exact max_eq_right
      (pyRFind_le '(' ')' u w (by decide) (fun x hx => (hw x hx).1))

theorem firstIdxOf_cons (c x : Char) (t : List Char) :
    firstIdxOf c (x :: t) =
      if x = c then some 0 else (firstIdxOf c t).map (· + 1) := rfl

theorem firstIdxOf_space (p : Char) (v₁ v₂ : List Char) (hp : p ≠ ' ')
    (hv : ∀ x ∈ v₁, x ≠ ' ') :
    firstIdxOf ' ' (p :: (v₁ ++ ' ' :: v₂)) = some (v₁.length + 1) := by
  rw [firstIdxOf_cons, if_neg hp]
  have h1 : ∀ (v : List Char), (∀ x ∈ v, x ≠ ' ') →
      firstIdxOf ' ' (v ++ ' ' :: v₂) = some v.length := by
    intro v
    induction v with
    | nil =>
      intro _
      simp [firstIdxOf_cons]
    | cons y t ih =>
      intro hvv
      rw [List.cons_append, firstIdxOf_cons,
        if_neg (hvv y (List.mem_cons_self y t)),
        ih (fun x hx => hvv x (List.mem_cons_of_mem y hx))]
      simp
  rw [h1 v₁ hv]
  simp

/-- `find(' ', |u|)` on the fallback decomposition lands on the first
space after the last parenthesis. -/
theorem pyFind_space (u v₁ v₂ : List Char) (p : Char) (hp : p ≠ ' ')
    (hv : ∀ x ∈ v₁, x ≠ ' ') :
    pyFindCharFrom ' ' (u ++ p :: (v₁ ++ ' ' :: v₂)) (u.length : Int) =
      ((u.length + (v₁.length + 1) : Nat) : Int) := by
  unfold pyFindCharFrom
  dsimp only
  rw [if_neg (by omega), Int.toNat_natCast, List.drop_left,
    firstIdxOf_space p v₁ v₂ hp hv]

theorem pySlice_space (u v₁ v₂ : List Char) (p : Char) :
    pySliceFrom (u ++ p :: (v₁ ++ ' ' :: v₂))
      ((u.length + (v₁.length + 1) : Nat) : Int) = ' ' :: v₂ := by
  unfold pySliceFrom
  rw [if_neg (by omega), Int.toNat_natCast]
  have hassoc : u ++ p :: (v₁ ++ ' ' :: v₂) = (u ++ p :: v₁) ++ ' ' :: v₂ := by
    simp
  rw [hassoc]
  have hlen : u.length + (v₁.length + 1) = (u ++ p :: v₁).length := by
    simp
  rw [hlen, List.drop_left]

theorem pyStrip_cons_space (v : List Char) : pyStrip (' ' :: v) = pyStrip v := by
  unfold pyStrip
  rw [List.dropWhile_cons, if_pos (by decide)]

/-- With no separator present, the post-processing returns the text from
the first space at or after the last parenthesis, stripped. -/
theorem paraphrasePost_fallback (u v₁ v₂ : List Char) (p : Char)
    (hp : p = '(' ∨ p = ')')
    (hsep : containsSEP (u ++ p :: (v₁ ++ ' ' :: v₂)) = false)
    (hv₁ : ∀ x ∈ v₁, x ≠ '(' ∧ x ≠ ')' ∧ x ≠ ' ')
    (hv₂ : ∀ x ∈ v₂, x ≠ '(' ∧ x ≠ ')') :
    paraphrasePost (u ++ p :: (v₁ ++ ' ' :: v₂)) = pyStrip v₂ := by
  unfold paraphrasePost
  rw [if_neg (by simp [hsep])]
  dsimp only
  have hw : ∀ x ∈ v₁ ++ ' ' :: v₂, x ≠ '(' ∧ x ≠ ')' := by
    intro x hx
    rcases List.mem_append.mp hx with hx | hx
    · exact ⟨(hv₁ x hx).1, (hv₁ x hx).2.1⟩
    · rcases List.mem_cons.mp hx with hx | hx
      · subst hx
        exact ⟨by decide, by decide⟩
      · exact hv₂ x hx
  rw [rfind_paren_max u (v₁ ++ ' ' :: v₂) p hp hw]
  have hpns : p ≠ ' ' := by
    rcases hp with hp | hp <;> subst hp <;> decide
  rw [pyFind_space u v₁ v₂ p hpns (fun x hx => (hv₁ x hx).2.2),
    pySlice_space u v₁ v₂ p]
  exact pyStrip_cons_space v₂

/-- C9 counterexample: on `'a [SEP] b [SEP] c'` the code yields `'b'`, not
the text after the first `'[SEP]'` stripped (`'b [SEP] c'`), because
`split('[SEP]')[1]` is only the segment between the first two
separators. -/
theorem c9_first_sep_counterexample :
    paraphrasePost ("a [SEP] b [SEP] c".toList) ≠
      pyStrip (afterSEP ("a [SEP] b [SEP] c".toList)) ∧
    paraphrasePost ("a [SEP] b [SEP] c".toList) = "b".toList ∧
    pyStrip (afterSEP ("a [SEP] b [SEP] c".toList)) = "b [SEP] c".toList :=
  ⟨by decide, by decide, by decide⟩

/-- C9 (amended): on a string containing `'[SEP]'` the `'paraphrase'`
post-processing yields the text after the first `'[SEP]'` and before the
following `'[SEP]'` if any (the second field of the split), stripped — so
`'foo [SEP] bar baz'` yields `'bar baz'`; on a string with no `'[SEP]'`
it yields the text from the first space at or after the last parenthesis
character, stripped. -/
theorem c9_paraphrase_amended :
    (∀ s : List Char, containsSEP s = true →
      (s = beforeSEP s ++ sepChars ++ afterSEP s ∧
       containsSEP (beforeSEP s) = false ∧
       paraphrasePost s = pyStrip (beforeSEP (afterSEP s)))) ∧
    (∀ (u v₁ v₂ : List Char) (p : Char), (p = '(' ∨ p = ')') →
      containsSEP (u ++ p :: (v₁ ++ ' ' :: v₂)) = false →
      (∀ x ∈ v₁, x ≠ '(' ∧ x ≠ ')' ∧ x ≠ ' ') →
      (∀ x ∈ v₂, x ≠ '(' ∧ x ≠ ')') →
      paraphrasePost (u ++ p :: (v₁ ++ ' ' :: v₂)) = pyStrip v₂) ∧
    paraphrasePost ("foo [SEP] bar baz".toList) = "bar baz".toList := by
  refine ⟨?_, ?_, by decide⟩
  · intro s h
    exact ⟨decompSEP s h, containsSEP_beforeSEP s, paraphrasePost_contains s h⟩
  · intro u v₁ v₂ p hp hsep hv₁ hv₂
    exact paraphrasePost_fallback u v₁ v₂ p hp hsep hv₁ hv₂

/-- C9 witness: the separator branch applied at the spec's example. -/
theorem c9_paraphrase_amended_witness :
    containsSEP ("foo [SEP] bar baz".toList) = true ∧
    paraphrasePost ("foo [SEP] bar baz".toList) =
      pyStrip (beforeSEP (afterSEP ("foo [SEP] bar baz".toList))) :=
  ⟨by decide,
    (c9_paraphrase_amended.1 ("foo [SEP] bar baz".toList) (by decide)).2.2⟩

end TB
